import Mathlib

/-!
Verification of the `/process_image` handler of `src/app.py` (Flask backend
that forwards a prescription image to an external model and normalizes the
model's textual reply into a list of medicine records).

Modelling conventions (shallow embedding of the Python code):
* Python `str` values are modelled as `List Char` (Python strings are
  sequences of Unicode code points); the thin `String` wrappers of Lean are
  used only at the outer interface.
* JSON values decoded by `json.loads` are modelled by the inductive `JValue`.
  Python `dict`s (JSON objects) are modelled as ordered association lists
  with the Python insert-or-update assignment semantics (`dictSet`).
* JSON fractional numbers, which CPython decodes to `float`, are modelled as
  exact rational numbers (`Rat`).  IEEE-754 artifacts (rounding of a decimal
  literal to the nearest binary64, overflow of huge literals to `inf`,
  underflow to `0.0`, and the `NaN`/`Infinity` literal extensions of
  CPython's `json`) are outside this model; no claim under verification
  exercises them.
* Exceptions are modelled by `Option`/`Except`: the `int(...)` call of
  line 136 can only raise `ValueError`/`TypeError` on decoded JSON values
  (both caught on line 137), so it is an `Option Int`; the attribute error
  raised by `item.get` when an element of the decoded list is not a dict
  (line 136) escapes to the outer handler and is the `Except` error of
  `normalizeDetails`.
-/

/-! ## Python string primitives -/

/-- Python's notion of a whitespace character (`str.isspace`), which is what
`str.strip()` with no argument removes from both ends.  It covers the ASCII
whitespace characters together with the Unicode space/line/paragraph
separators recognised by CPython. -/
def pyWsChar (c : Char) : Bool :=
  c = ' ' || c = '\t' || c = '\n' || c = '\r' || c = '\x0b' || c = '\x0c' ||
  (0x1c ≤ c.toNat && c.toNat ≤ 0x1f) || c = '\x85' || c = '\xa0' ||
  c = ' ' || (0x2000 ≤ c.toNat && c.toNat ≤ 0x200a) ||
  c = ' ' || c = ' ' || c = ' ' || c = ' ' || c = '　'

/-- Left part of Python `str.strip()`: drop leading whitespace. -/
def lstripChars (s : List Char) : List Char := s.dropWhile pyWsChar

/-- Right part of Python `str.strip()`: drop trailing whitespace. -/
def rstripChars (s : List Char) : List Char :=
  (s.reverse.dropWhile pyWsChar).reverse

/-- Python `str.strip()` with no arguments. -/
def pyStrip (s : List Char) : List Char := rstripChars (lstripChars s)

/-- Python `str.startswith(pat)`. -/
def pyStartsWith (pat s : List Char) : Prop := s.take pat.length = pat

instance (pat s : List Char) : Decidable (pyStartsWith pat s) := by
  unfold pyStartsWith; infer_instance

/-- Python `str.endswith(pat)`. -/
def pyEndsWith (pat s : List Char) : Prop := s.drop (s.length - pat.length) = pat

instance (pat s : List Char) : Decidable (pyEndsWith pat s) := by
  unfold pyEndsWith; infer_instance

/-- Python `s[:-n]` (for `0 < n ≤ len(s)`; also correct for `n > len(s)`,
where Python yields the empty string). -/
def pyDropRight (n : Nat) (s : List Char) : List Char := s.take (s.length - n)

/-- Python `str.replace(old, new)` specialised to a two-character pattern
`[x, y]` (the only pattern shape line 111 of `src/app.py` uses): scanning
left to right, each non-overlapping occurrence of `x` directly followed by
`y` is replaced by `rep`, and scanning resumes after the replaced
occurrence. -/
def pyReplace2 (x y : Char) (rep : List Char) : List Char → List Char
  | [] => []
  | [a] => [a]
  | a :: b :: t =>
    if a = x ∧ b = y then rep ++ pyReplace2 x y rep t
    else a :: pyReplace2 x y rep (b :: t)

/-- Python `str.replace(pat, rep, 1)` for a nonempty pattern: replace only
the first occurrence. -/
def pyReplaceOnce (pat rep : List Char) : List Char → List Char
  | [] => []
  | a :: t =>
    if pat ≠ [] ∧ (a :: t).take pat.length = pat then
      rep ++ (a :: t).drop pat.length
    else
      a :: pyReplaceOnce pat rep t

/-! ## The JSON data model (values produced by Python's `json.loads`) -/

/-- A decoded JSON value, as produced by `json.loads` in CPython:
`null`/`true`/`false` become `None`/`True`/`False`, numbers become `int` or
`float` (here: exact `Rat`), strings become `str`, arrays become `list`, and
objects become `dict` (here: ordered association lists built with the
Python dict insert-or-update semantics, so keys are unique). -/
inductive JValue where
  | null
  | bool (b : Bool)
  | int (n : Int)
  | float (q : Rat)
  | str (s : String)
  | arr (xs : List JValue)
  | obj (fields : List (String × JValue))
deriving Repr

/-- Discriminator: is this value a JSON object (a Python `dict`)? -/
def JValue.isObj : JValue → Bool
  | .obj _ => true
  | _ => false

/-- Discriminator: is this value a Python `int`? -/
def JValue.isInt : JValue → Bool
  | .int _ => true
  | _ => false

/-- Discriminator: is this value a Python `str`? -/
def JValue.isStr : JValue → Bool
  | .str _ => true
  | _ => false

/-- Python truthiness (`bool(x)`) of a decoded JSON value, as used by the
`x or default` idiom on lines 141-150 of `src/app.py`:  `None`, `False`,
`0`, `0.0`, `""`, `[]` and `\x7b\x7d` are falsy, everything else truthy. -/
def pyTruthy : JValue → Bool
  | .null => false
  | .bool b => b
  | .int n => decide (n ≠ 0)
  | .float q => decide (q ≠ 0)
  | .str s => decide (s ≠ "")
  | .arr xs => !xs.isEmpty
  | .obj fs => !fs.isEmpty

/-- Python `x or d` specialised to the handler's use. -/
def pyOr (v d : JValue) : JValue := if pyTruthy v then v else d

/-! ## Python dict operations (on ordered association lists) -/

/-- Python `d.get(k, default)`: the value of the first (and, for dicts built
by `dictSet`, only) binding of `k`, or `default` when `k` is absent. -/
def dictGetD (m : List (String × JValue)) (k : String) (d : JValue) : JValue :=
  match m.find? (fun p => p.1 == k) with
  | some p => p.2
  | none => d

/-- Python `k in d`. -/
def dictHasKey (m : List (String × JValue)) (k : String) : Bool :=
  m.any (fun p => p.1 == k)

/-- Python `d[k] = v`: update the existing binding in place (keeping its
position) or append a new binding at the end. -/
def dictSet (m : List (String × JValue)) (k : String) (v : JValue) :
    List (String × JValue) :=
  if dictHasKey m k then
    m.map (fun p => if p.1 == k then (k, v) else p)
  else
    m ++ [(k, v)]

/-! ## Python `int(...)` on decoded JSON values (line 136 of `src/app.py`) -/

/-- Value of an ASCII decimal digit. -/
def digitVal? (c : Char) : Option Nat :=
  if '0' ≤ c ∧ c ≤ '9' then some (c.toNat - 48) else none

/-- Digits of an integer literal accepted by Python `int(str)` after the
first digit: decimal digits with single underscores allowed between
digits (PEP 515). -/
def pyIntDigitsAux : Nat → List Char → Option Nat
  | acc, [] => some acc
  | acc, c :: t =>
    if c = '_' then
      match t with
      | [] => none
      | c2 :: t2 =>
        match digitVal? c2 with
        | some d => pyIntDigitsAux (acc * 10 + d) t2
        | none => none
    else
      match digitVal? c with
      | some d => pyIntDigitsAux (acc * 10 + d) t
      | none => none

/-- Unsigned digit string accepted by Python `int(str)`: at least one digit,
underscores only between digits. -/
def pyIntCore : List Char → Option Nat
  | [] => none
  | c :: t =>
    match digitVal? c with
    | some d => pyIntDigitsAux d t
    | none => none

/-- Python `int(s)` for a `str` argument: strip whitespace, then an optional
sign followed by digits (ASCII digits with optional single underscores
between them); `none` models the `ValueError` raised otherwise. -/
def pyIntOfStr (s : String) : Option Int :=
  match pyStrip s.data with
  | [] => none
  | c :: t =>
    if c = '-' then (pyIntCore t).map (fun n => -(n : Int))
    else if c = '+' then (pyIntCore t).map (fun n => (n : Int))
    else (pyIntCore (c :: t)).map (fun n => (n : Int))

/-- Truncation toward zero, the behaviour of Python `int(float)`. -/
def ratTrunc (q : Rat) : Int := Int.tdiv q.num (Int.ofNat q.den)

/-- Python `int(x)` applied to a decoded JSON value, as on line 136 of
`src/app.py`.  `none` models the `ValueError` (non-numeric string, and, in
the full CPython semantics, also `float('nan')`) or `TypeError`
(`None`/`list`/`dict`) that the code catches on line 137. -/
def pyIntJV : JValue → Option Int
  | .int n => some n
  | .bool b => some (if b then 1 else 0)
  | .float q => some (ratTrunc q)
  | .str s => pyIntOfStr s
  | .null => none
  | .arr _ => none
  | .obj _ => none

/-! ## The normalization loop (lines 133-150 of `src/app.py`) -/

/-- Body of the `for item in medicine_details` loop (lines 133-150):
`item['duration'] = int(item.get('duration', -1))` with `ValueError` and
`TypeError` mapped to `-1`, then `item[k] = item.get(k, d) or d` for
`meal` (default `"anytime"`), `frequency`, `quantity` and `name`
(default `""`), in that order. -/
def normalizeItem (item : List (String × JValue)) : List (String × JValue) :=
  let i1 := dictSet item "duration"
    (.int ((pyIntJV (dictGetD item "duration" (.int (-1)))).getD (-1)))
  let i2 := dictSet i1 "meal"
    (pyOr (dictGetD i1 "meal" (.str "anytime")) (.str "anytime"))
  let i3 := dictSet i2 "frequency"
    (pyOr (dictGetD i2 "frequency" (.str "")) (.str ""))
  let i4 := dictSet i3 "quantity"
    (pyOr (dictGetD i3 "quantity" (.str "")) (.str ""))
  dictSet i4 "name" (pyOr (dictGetD i4 "name" (.str "")) (.str ""))

/-- Image of one element of `medicine_details` under the loop (objects are
normalized in place; the loop never completes on any other value). -/
def normalizeTop : JValue → JValue
  | .obj fs => .obj (normalizeItem fs)
  | v => v

/-- The whole loop of lines 133-150.  When every element of the list is a
JSON object the loop rewrites each in place; when some element is not a
dict, `item.get` raises `AttributeError` (not caught by the inner
`except (ValueError, TypeError)` nor by the `except json.JSONDecodeError`),
modelled by the `Except` error. -/
def normalizeDetails : List JValue → Except Unit (List JValue)
  | [] => .ok []
  | .obj fs :: rest =>
    match normalizeDetails rest with
    | .ok r => .ok (.obj (normalizeItem fs) :: r)
    | .error e => .error e
  | _ :: _ => .error ()

/-! ## A model of CPython's `json.loads` (line 114 of `src/app.py`)

The decoder: skip JSON whitespace, scan one value, skip JSON whitespace,
and require the end of the input ("Extra data" otherwise).  Failure of any
kind is `none`, modelling `json.JSONDecodeError` (caught on line 124).
The `NaN`/`Infinity` extensions and lone-surrogate `\uXXXX` escapes accepted
by CPython are outside the model (they decode to values no claim reaches). -/

/-- JSON whitespace (the only characters `json.loads` skips between tokens). -/
def jsonWsChar (c : Char) : Bool :=
  c = ' ' || c = '\t' || c = '\n' || c = '\r'

/-- Skip JSON whitespace. -/
def skipWs (s : List Char) : List Char := s.dropWhile jsonWsChar

/-- Value of a hexadecimal digit. -/
def hexVal? (c : Char) : Option Nat :=
  if '0' ≤ c ∧ c ≤ '9' then some (c.toNat - 48)
  else if 'a' ≤ c ∧ c ≤ 'f' then some (c.toNat - 87)
  else if 'A' ≤ c ∧ c ≤ 'F' then some (c.toNat - 55)
  else none

/-- The eight short escapes of JSON. -/
def escChar? : Char → Option Char
  | '"' => some '"'
  | '\\' => some '\\'
  | '/' => some '/'
  | 'b' => some '\x08'
  | 'f' => some '\x0c'
  | 'n' => some '\n'
  | 'r' => some '\r'
  | 't' => some '\t'
  | _ => none

/-- Decode the body of a JSON string literal (the opening quote already
consumed): literal characters are any characters except `"`, `\` and
controls below `0x20` (the decoder runs in strict mode); escapes are the
eight short escapes and `\uXXXX`, with surrogate pairs combined. -/
def parseStrBody : List Char → Option (List Char × List Char)
  | [] => none
  | '"' :: t => some ([], t)
  | '\\' :: 'u' :: h1 :: h2 :: h3 :: h4 :: t2 =>
    (match hexVal? h1, hexVal? h2, hexVal? h3, hexVal? h4 with
     | some a, some b, some c, some d =>
       let n := ((a * 16 + b) * 16 + c) * 16 + d
       if 0xd800 ≤ n ∧ n ≤ 0xdbff then
         match t2 with
         | '\\' :: 'u' :: g1 :: g2 :: g3 :: g4 :: t3 =>
           (match hexVal? g1, hexVal? g2, hexVal? g3, hexVal? g4 with
            | some a2, some b2, some c2, some d2 =>
              let m := ((a2 * 16 + b2) * 16 + c2) * 16 + d2
              if 0xdc00 ≤ m ∧ m ≤ 0xdfff then
                match parseStrBody t3 with
                | some (cs, r) =>
                  some (Char.ofNat (0x10000 + (n - 0xd800) * 0x400 + (m - 0xdc00)) :: cs, r)
                | none => none
              else none
            | _, _, _, _ => none)
         | _ => none
       else if 0xdc00 ≤ n ∧ n ≤ 0xdfff then none
       else
         match parseStrBody t2 with
         | some (cs, r) => some (Char.ofNat n :: cs, r)
         | none => none
     | _, _, _, _ => none)
  | '\\' :: e :: t1 =>
    (match escChar? e with
     | some c =>
       (match parseStrBody t1 with
        | some (cs, r) => some (c :: cs, r)
        | none => none)
     | none => none)
  | ['\\'] => none
  | c :: t =>
    if c.toNat < 0x20 then none
    else
      match parseStrBody t with
      | some (cs, r) => some (c :: cs, r)
      | none => none

/-- Numeric value of a (non-empty) ASCII digit string. -/
def digitsToNat (ds : List Char) : Nat :=
  ds.foldl (fun a c => a * 10 + (c.toNat - 48)) 0

/-- Maximal run of ASCII digits and the remainder. -/
def takeDigits (s : List Char) : List Char × List Char :=
  (s.takeWhile Char.isDigit, s.dropWhile Char.isDigit)

/-- Integer part of the JSON number grammar, regex `(0|[1-9]\d*)`. -/
def scanIntPart : List Char → Option (List Char × List Char)
  | [] => none
  | '0' :: t => some (['0'], t)
  | c :: t =>
    if c.isDigit then
      some (c :: (takeDigits t).1, (takeDigits t).2)
    else none

/-- Optional fraction `(\.\d+)?`: digits of the fraction if matched,
together with the remainder (unchanged when not matched, as the regex
backtracks). -/
def scanFrac : List Char → Option (List Char) × List Char
  | '.' :: t =>
    match takeDigits t with
    | ([], _) => (none, '.' :: t)
    | (ds, r) => (some ds, r)
  | s => (none, s)

/-- Optional exponent `([eE][-+]?\d+)?`: sign and digits if matched,
together with the remainder (unchanged when not matched). -/
def scanExp : List Char → Option (Bool × List Char) × List Char
  | e :: t =>
    if e = 'e' ∨ e = 'E' then
      match t with
      | '+' :: t2 =>
        (match takeDigits t2 with
         | ([], _) => (none, e :: t)
         | (ds, r) => (some (false, ds), r))
      | '-' :: t2 =>
        (match takeDigits t2 with
         | ([], _) => (none, e :: t)
         | (ds, r) => (some (true, ds), r))
      | t2 =>
        (match takeDigits t2 with
         | ([], _) => (none, e :: t)
         | (ds, r) => (some (false, ds), r))
    else (none, e :: t)
  | [] => (none, [])

/-- The value of a matched JSON number: a Python `int` when neither a
fraction nor an exponent is present, a `float` (exact rational here)
otherwise.  The rational is computed with integer arithmetic only:
`±(digits of ip ++ fr) · 10^(exp - |fr|)`. -/
def numValue (neg : Bool) (ip : List Char) (fr : Option (List Char))
    (ex : Option (Bool × List Char)) : JValue :=
  match fr, ex with
  | none, none =>
    .int (if neg then -(digitsToNat ip : Int) else (digitsToNat ip : Int))
  | _, _ =>
    let frDs := fr.getD []
    let m : Int := (digitsToNat (ip ++ frDs) : Int)
    let m : Int := if neg then -m else m
    let e : Int :=
      (match ex with
       | some (true, ds) => -(digitsToNat ds : Int)
       | some (false, ds) => (digitsToNat ds : Int)
       | none => 0) - (frDs.length : Int)
    if 0 ≤ e then .float (mkRat (m * (10 ^ e.toNat : Nat)) 1)
    else .float (mkRat m (10 ^ (-e).toNat))

/-- Scan a JSON number at the head of the input (CPython's `NUMBER_RE`
followed by the int/float conversion). -/
def parseNum (s : List Char) : Option (JValue × List Char) :=
  match s with
  | '-' :: t =>
    (match scanIntPart t with
     | none => none
     | some (ip, r1) =>
       let p2 := scanFrac r1
       let p3 := scanExp p2.2
       some (numValue true ip p2.1 p3.1, p3.2))
  | _ =>
    (match scanIntPart s with
     | none => none
     | some (ip, r1) =>
       let p2 := scanFrac r1
       let p3 := scanExp p2.2
       some (numValue false ip p2.1 p3.1, p3.2))

/-- Build a Python dict from `"key": value` pairs in document order with the
insert-or-update assignment, so a repeated key keeps its first position and
its last value (as `dict` comprehension over pairs does in CPython). -/
def pairsToDict (ps : List (String × JValue)) : List (String × JValue) :=
  ps.foldl (fun m kv => dictSet m kv.1 kv.2) []

mutual

/-- Scan one JSON value at the head of the input (no leading whitespace:
callers skip it), CPython's `scan_once`.  The fuel argument only serves
termination; `jsonLoads` supplies enough for any input. -/
def parseVal : Nat → List Char → Option (JValue × List Char)
  | 0, _ => none
  | fuel + 1, s =>
    match s with
    | '\x7b' :: t =>
      (match parseMembersFirst fuel (skipWs t) with
       | some (ps, r) => some (.obj (pairsToDict ps), r)
       | none => none)
    | '[' :: t =>
      (match parseElemsFirst fuel (skipWs t) with
       | some (xs, r) => some (.arr xs, r)
       | none => none)
    | '"' :: t =>
      (match parseStrBody t with
       | some (cs, r) => some (.str (String.mk cs), r)
       | none => none)
    | 't' :: 'r' :: 'u' :: 'e' :: t => some (.bool true, t)
    | 'f' :: 'a' :: 'l' :: 's' :: 'e' :: t => some (.bool false, t)
    | 'n' :: 'u' :: 'l' :: 'l' :: t => some (.null, t)
    | _ => parseNum s

/-- Elements of an array, positioned after `[` and whitespace: either the
immediate closer of an empty array, or one-or-more comma-separated values. -/
def parseElemsFirst : Nat → List Char → Option (List JValue × List Char)
  | 0, _ => none
  | fuel + 1, s =>
    match s with
    | ']' :: t => some ([], t)
    | _ => parseElems fuel s

/-- One or more comma-separated array elements, ending at `]`. -/
def parseElems : Nat → List Char → Option (List JValue × List Char)
  | 0, _ => none
  | fuel + 1, s =>
    match parseVal fuel s with
    | none => none
    | some (v, r1) =>
      match skipWs r1 with
      | ',' :: r2 =>
        (match parseElems fuel (skipWs r2) with
         | some (xs, r) => some (v :: xs, r)
         | none => none)
      | ']' :: r2 => some ([v], r2)
      | _ => none

/-- Members of an object, positioned after `\x7b` and whitespace: either the
immediate closer of an empty object, or one-or-more `"key": value` pairs,
returned in document order. -/
def parseMembersFirst : Nat → List Char → Option (List (String × JValue) × List Char)
  | 0, _ => none
  | fuel + 1, s =>
    match s with
    | '\x7d' :: t => some ([], t)
    | _ => parseMembers fuel s

/-- One or more comma-separated `"key": value` members, ending at `\x7d`,
returned in document order. -/
def parseMembers : Nat → List Char → Option (List (String × JValue) × List Char)
  | 0, _ => none
  | fuel + 1, s =>
    match s with
    | '"' :: t =>
      (match parseStrBody t with
       | none => none
       | some (key, r1) =>
         match skipWs r1 with
         | ':' :: r2 =>
           (match parseVal fuel (skipWs r2) with
            | none => none
            | some (v, r3) =>
              match skipWs r3 with
              | ',' :: r4 =>
                (match parseMembers fuel (skipWs r4) with
                 | some (ps, r) => some ((String.mk key, v) :: ps, r)
                 | none => none)
              | '\x7d' :: r4 => some ([(String.mk key, v)], r4)
              | _ => none)
         | _ => none)
    | _ => none

end

/-- CPython's `json.loads` on a `str`: skip whitespace, scan one value,
skip whitespace, and require the end of the input.  `none` models
`json.JSONDecodeError`.  The fuel `3 * u.length + 3` is always sufficient:
at most three of the mutual parsers are entered per character of input
consumed (`parseVal` → `parseElemsFirst` → `parseElems` for each `[`, and
likewise for `\x7b`), as `fuel_suffices` below makes precise. -/
def jsonLoads (s : List Char) : Option JValue :=
  let u := skipWs s
  match parseVal (3 * u.length + 3) u with
  | some (v, r) => if skipWs r = [] then some v else none
  | none => none

/-! ## The `/process_image` handler (lines 26-161 of `src/app.py`) -/

/-- The fixed string `"```json"` checked and removed on lines 104-105. -/
def fenceTag : List Char :=
  ['\x60', '\x60', '\x60', 'j', 's', 'o', 'n']

/-- The fixed string `"```"` checked on line 106 (and removed via `[:-3]`). -/
def fenceEnd : List Char := ['\x60', '\x60', '\x60']

/-- Lines 104-107: strip a leading markdown fence marker (replace the first
occurrence of `"```json"` and strip, when the text starts with it), then a
trailing one (chop three characters and strip, when the text ends with
`"```"`). -/
def fenceStrip (s : List Char) : List Char :=
  let s1 := if pyStartsWith fenceTag s then pyStrip (pyReplaceOnce fenceTag [] s) else s
  if pyEndsWith fenceEnd s1 then pyStrip (pyDropRight 3 s1) else s1

/-- Line 111: `text.replace(",]", "]").replace(",\x7d", "\x7d").strip()`. -/
def cleanupText (s : List Char) : List Char :=
  pyStrip (pyReplace2 ',' '\x7d' ['\x7d'] (pyReplace2 ',' ']' [']'] s))

/-- Lines 104-111 together: the whole pre-parse rewriting of the model text
(the final value of the `gemini_response_text` variable, which is also what
the handler returns as `extracted_text`). -/
def preparse (s : List Char) : List Char := cleanupText (fenceStrip s)

/-- The error body built by `jsonify(\x7b'error': msg\x7d)`. -/
def jsonError (msg : String) : JValue := .obj [("error", .str msg)]

/-- Lines 96-156: given the text of the model's reply, strip it (line 96),
rewrite it (lines 104-111), parse it as JSON with fallback to the empty
list on decode errors or unexpected top-level values (lines 114-127), run
the normalization loop (lines 133-150), and answer 200 with the cleaned
text and the normalized records — unless the loop raises, in which case the
outer handler answers 500 (lines 158-161). -/
def handleModelText (raw : String) : Nat × JValue :=
  let t := preparse (pyStrip raw.data)
  let details0 : List JValue :=
    match jsonLoads t with
    | some (.arr xs) => xs
    | some (.obj fs) => [.obj fs]
    | some _ => []
    | none => []
  match normalizeDetails details0 with
  | .ok ds =>
    (200, .obj [("extracted_text", .str (String.mk t)),
                ("medicine_details", .arr ds)])
  | .error _ =>
    (500, jsonError "An internal server error occurred during image processing.")

/-- Outcome of the call to the external model (line 93): either its text
reply, or an exception (network failure, missing credential, ...) caught by
the outer handler. -/
inductive ModelOutcome where
  | text (t : String)
  | failure

/-- A response of the handler, together with whether the external model was
invoked on the way. -/
structure HandlerResponse where
  status : Nat
  body : JValue
  calledModel : Bool

/-- The `/process_image` route (lines 26-161).  `files` is the multipart
form's file fields, as pairs of field name and filename (the only parts the
control flow reads); `request.files['image']` is the first field named
`"image"`. -/
def process_image (files : List (String × String)) (outcome : ModelOutcome) :
    HandlerResponse :=
  match files.find? (fun p => p.1 == "image") with
  | none => ⟨400, jsonError "No image file provided", false⟩
  | some p =>
    if p.2 = "" then ⟨400, jsonError "No selected image file", false⟩
    else
      match outcome with
      | .failure =>
        ⟨500, jsonError "An internal server error occurred during image processing.", true⟩
      | .text t => ⟨(handleModelText t).1, (handleModelText t).2, true⟩

/-! ## Auxiliary predicates used in the statements below -/

/-- Does the text contain a comma immediately followed by an array or
object closer? -/
def hasCommaCloser : List Char → Bool
  | ',' :: c :: t =>
    if c = ']' ∨ c = '\x7d' then true else hasCommaCloser (c :: t)
  | _ :: t => hasCommaCloser t
  | [] => false

/-- Does the text contain a comma immediately followed by the character
`z`? -/
def hasCommaBefore (z : Char) : List Char → Bool
  | ',' :: c :: t => if c = z then true else hasCommaBefore z (c :: t)
  | _ :: t => hasCommaBefore z t
  | [] => false

/-- Does the text avoid two adjacent commas? -/
def noDoubleComma : List Char → Bool
  | ',' :: ',' :: _ => false
  | _ :: t => noDoubleComma t
  | [] => true

/-- Head of `v`, falling back to `nxt` when `v` is empty (the character
following a fragment inside a larger text). -/
def headOr (v : List Char) (nxt : Option Char) : Option Char :=
  match v with
  | [] => nxt
  | c :: _ => some c

/-- Deletion form of `pyReplace2 ',' y [y]` generalised with a lookahead:
delete every comma whose following character — or, at the end of the
fragment, the character `nxt` of the surrounding text — is `y`.  On whole
texts (`nxt = none`) this is exactly the replace of line 111; the lookahead
makes the function distribute over concatenation. -/
def dropCB (y : Char) (nxt : Option Char) : List Char → List Char
  | [] => []
  | [a] => if a = ',' ∧ nxt = some y then [] else [a]
  | a :: b :: t =>
    if a = ',' ∧ b = y then dropCB y nxt (b :: t)
    else a :: dropCB y nxt (b :: t)

/-! # Theorems -/

/-! ## Dict lemmas -/

theorem dictGetD_cons (p : String × JValue) (t : List (String × JValue))
    (k : String) (d : JValue) :
    dictGetD (p :: t) k d = if p.1 = k then p.2 else dictGetD t k d := by
  by_cases hp : p.1 = k <;> simp [dictGetD, List.find?_cons, hp]

theorem dictHasKey_cons (p : String × JValue) (t : List (String × JValue))
    (k : String) :
    dictHasKey (p :: t) k = (decide (p.1 = k) || dictHasKey t k) := by
  by_cases hp : p.1 = k <;> simp [dictHasKey, hp]

theorem dictSet_cons (p : String × JValue) (t : List (String × JValue))
    (k : String) (v : JValue) :
    dictSet (p :: t) k v =
      if p.1 = k then
        (k, v) :: t.map (fun q => if q.1 = k then (k, v) else q)
      else p :: dictSet t k v := by
  by_cases hp : p.1 = k
  · have : List.map (fun q => if q.1 == k then (k, v) else q) t
        = List.map (fun q => if q.1 = k then (k, v) else q) t := by
      apply List.map_congr_left; intro q _; by_cases hq : q.1 = k <;> simp [hq]
    simp [dictSet, dictHasKey, hp, this]
  · have hmap : List.map (fun q => if q.1 == k then (k, v) else q) t
        = List.map (fun q => if q.1 = k then (k, v) else q) t := by
      apply List.map_congr_left; intro q _; by_cases hq : q.1 = k <;> simp [hq]
    by_cases ht : dictHasKey t k = true
    · simp [dictSet, dictHasKey_cons, hp, ht, hmap]
    · simp only [Bool.not_eq_true] at ht
      simp [dictSet, dictHasKey_cons, hp, ht, hmap]

theorem dictGetD_map_other (t : List (String × JValue)) (k k' : String)
    (hk : k' ≠ k) (v d : JValue) :
    dictGetD (t.map (fun q => if q.1 = k then (k, v) else q)) k' d
      = dictGetD t k' d := by
  induction t with
  | nil => rfl
  | cons q u ih =>
    by_cases hq : q.1 = k
    · simp [dictGetD_cons, hq, Ne.symm hk, ih]
    · simp [dictGetD_cons, hq, ih]

theorem dictHasKey_map_other (t : List (String × JValue)) (k k' : String)
    (hk : k' ≠ k) (v : JValue) :
    dictHasKey (t.map (fun q => if q.1 = k then (k, v) else q)) k'
      = dictHasKey t k' := by
  induction t with
  | nil => rfl
  | cons q u ih =>
    by_cases hq : q.1 = k
    · simp [dictHasKey_cons, hq, Ne.symm hk, ih]
    · simp [dictHasKey_cons, hq, ih]

theorem dictGetD_dictSet_self (m : List (String × JValue)) (k : String)
    (v d : JValue) : dictGetD (dictSet m k v) k d = v := by
  induction m with
  | nil => simp [dictSet, dictHasKey, dictGetD, List.find?]
  | cons p t ih =>
    rw [dictSet_cons]
    by_cases hp : p.1 = k
    · simp [hp, dictGetD_cons]
    · simp [hp, dictGetD_cons, ih]

theorem dictGetD_dictSet_other (m : List (String × JValue)) (k k' : String)
    (hk : k' ≠ k) (v d : JValue) :
    dictGetD (dictSet m k v) k' d = dictGetD m k' d := by
  induction m with
  | nil =>
    have h0 : dictSet ([] : List (String × JValue)) k v = [(k, v)] := by
      simp [dictSet, dictHasKey]
    rw [h0, dictGetD_cons]
    simp [Ne.symm hk, dictGetD]
  | cons p t ih =>
    rw [dictSet_cons]
    by_cases hp : p.1 = k
    · have hp' : p.1 ≠ k' := by rw [hp]; exact Ne.symm hk
      simp [hp, dictGetD_cons, Ne.symm hk, hp',
        dictGetD_map_other t k k' hk v d]
    · simp [hp, dictGetD_cons, ih]

theorem dictHasKey_dictSet_self (m : List (String × JValue)) (k : String)
    (v : JValue) : dictHasKey (dictSet m k v) k = true := by
  induction m with
  | nil => simp [dictSet, dictHasKey]
  | cons p t ih =>
    rw [dictSet_cons]
    by_cases hp : p.1 = k
    · simp [hp, dictHasKey_cons]
    · simp [hp, dictHasKey_cons, ih]

theorem dictHasKey_dictSet_other (m : List (String × JValue)) (k k' : String)
    (hk : k' ≠ k) (v : JValue) :
    dictHasKey (dictSet m k v) k' = dictHasKey m k' := by
  induction m with
  | nil => simp [dictSet, dictHasKey, Ne.symm hk]
  | cons p t ih =>
    rw [dictSet_cons]
    by_cases hp : p.1 = k
    · have hp' : p.1 ≠ k' := by rw [hp]; exact Ne.symm hk
      simp [hp, dictHasKey_cons, Ne.symm hk, hp',
        dictHasKey_map_other t k k' hk v]
    · simp [hp, dictHasKey_cons, ih]

/-! ## Normalization lemmas -/

theorem normalizeItem_eq (item : List (String × JValue)) :
    normalizeItem item =
      dictSet (dictSet (dictSet (dictSet (dictSet item
        "duration" (.int ((pyIntJV (dictGetD item "duration" (.int (-1)))).getD (-1))))
        "meal" (pyOr (dictGetD item "meal" (.str "anytime")) (.str "anytime")))
        "frequency" (pyOr (dictGetD item "frequency" (.str "")) (.str "")))
        "quantity" (pyOr (dictGetD item "quantity" (.str "")) (.str "")))
        "name" (pyOr (dictGetD item "name" (.str "")) (.str "")) := by
  simp only [normalizeItem]
  rw [dictGetD_dictSet_other _ "duration" "meal" (by decide)]
  rw [dictGetD_dictSet_other _ "meal" "frequency" (by decide),
      dictGetD_dictSet_other _ "duration" "frequency" (by decide)]
  rw [dictGetD_dictSet_other _ "frequency" "quantity" (by decide),
      dictGetD_dictSet_other _ "meal" "quantity" (by decide),
      dictGetD_dictSet_other _ "duration" "quantity" (by decide)]
  rw [dictGetD_dictSet_other _ "quantity" "name" (by decide),
      dictGetD_dictSet_other _ "frequency" "name" (by decide),
      dictGetD_dictSet_other _ "meal" "name" (by decide),
      dictGetD_dictSet_other _ "duration" "name" (by decide)]

theorem normItem_getD_duration (item : List (String × JValue)) (d : JValue) :
    dictGetD (normalizeItem item) "duration" d
      = .int ((pyIntJV (dictGetD item "duration" (.int (-1)))).getD (-1)) := by
  rw [normalizeItem_eq,
    dictGetD_dictSet_other _ "name" "duration" (by decide),
    dictGetD_dictSet_other _ "quantity" "duration" (by decide),
    dictGetD_dictSet_other _ "frequency" "duration" (by decide),
    dictGetD_dictSet_other _ "meal" "duration" (by decide),
    dictGetD_dictSet_self]

theorem normItem_getD_meal (item : List (String × JValue)) (d : JValue) :
    dictGetD (normalizeItem item) "meal" d
      = pyOr (dictGetD item "meal" (.str "anytime")) (.str "anytime") := by
  rw [normalizeItem_eq,
    dictGetD_dictSet_other _ "name" "meal" (by decide),
    dictGetD_dictSet_other _ "quantity" "meal" (by decide),
    dictGetD_dictSet_other _ "frequency" "meal" (by decide),
    dictGetD_dictSet_self]

theorem normItem_getD_frequency (item : List (String × JValue)) (d : JValue) :
    dictGetD (normalizeItem item) "frequency" d
      = pyOr (dictGetD item "frequency" (.str "")) (.str "") := by
  rw [normalizeItem_eq,
    dictGetD_dictSet_other _ "name" "frequency" (by decide),
    dictGetD_dictSet_other _ "quantity" "frequency" (by decide),
    dictGetD_dictSet_self]

theorem normItem_getD_quantity (item : List (String × JValue)) (d : JValue) :
    dictGetD (normalizeItem item) "quantity" d
      = pyOr (dictGetD item "quantity" (.str "")) (.str "") := by
  rw [normalizeItem_eq,
    dictGetD_dictSet_other _ "name" "quantity" (by decide),
    dictGetD_dictSet_self]

theorem normItem_getD_name (item : List (String × JValue)) (d : JValue) :
    dictGetD (normalizeItem item) "name" d
      = pyOr (dictGetD item "name" (.str "")) (.str "") := by
  rw [normalizeItem_eq, dictGetD_dictSet_self]

theorem normItem_getD_other (item : List (String × JValue)) (k : String)
    (d : JValue) (h1 : k ≠ "duration") (h2 : k ≠ "meal") (h3 : k ≠ "frequency")
    (h4 : k ≠ "quantity") (h5 : k ≠ "name") :
    dictGetD (normalizeItem item) k d = dictGetD item k d := by
  rw [normalizeItem_eq,
    dictGetD_dictSet_other _ "name" k h5,
    dictGetD_dictSet_other _ "quantity" k h4,
    dictGetD_dictSet_other _ "frequency" k h3,
    dictGetD_dictSet_other _ "meal" k h2,
    dictGetD_dictSet_other _ "duration" k h1]

theorem normItem_hasKey_duration (item : List (String × JValue)) :
    dictHasKey (normalizeItem item) "duration" = true := by
  rw [normalizeItem_eq,
    dictHasKey_dictSet_other _ "name" "duration" (by decide),
    dictHasKey_dictSet_other _ "quantity" "duration" (by decide),
    dictHasKey_dictSet_other _ "frequency" "duration" (by decide),
    dictHasKey_dictSet_other _ "meal" "duration" (by decide),
    dictHasKey_dictSet_self]

theorem normItem_hasKey_meal (item : List (String × JValue)) :
    dictHasKey (normalizeItem item) "meal" = true := by
  rw [normalizeItem_eq,
    dictHasKey_dictSet_other _ "name" "meal" (by decide),
    dictHasKey_dictSet_other _ "quantity" "meal" (by decide),
    dictHasKey_dictSet_other _ "frequency" "meal" (by decide),
    dictHasKey_dictSet_self]

theorem normItem_hasKey_frequency (item : List (String × JValue)) :
    dictHasKey (normalizeItem item) "frequency" = true := by
  rw [normalizeItem_eq,
    dictHasKey_dictSet_other _ "name" "frequency" (by decide),
    dictHasKey_dictSet_other _ "quantity" "frequency" (by decide),
    dictHasKey_dictSet_self]

theorem normItem_hasKey_quantity (item : List (String × JValue)) :
    dictHasKey (normalizeItem item) "quantity" = true := by
  rw [normalizeItem_eq,
    dictHasKey_dictSet_other _ "name" "quantity" (by decide),
    dictHasKey_dictSet_self]

theorem normItem_hasKey_name (item : List (String × JValue)) :
    dictHasKey (normalizeItem item) "name" = true := by
  rw [normalizeItem_eq, dictHasKey_dictSet_self]

theorem normalizeDetails_ok_of_all_obj (l : List JValue)
    (h : ∀ x ∈ l, x.isObj = true) :
    normalizeDetails l = .ok (l.map normalizeTop) := by
  induction l with
  | nil => rfl
  | cons x t ih =>
    have hx := h x (List.mem_cons_self x t)
    cases x with
    | obj fs =>
      have := ih (fun y hy => h y (List.mem_cons_of_mem _ hy))
      simp [normalizeDetails, this, normalizeTop]
    | null => simp [JValue.isObj] at hx
    | bool b => simp [JValue.isObj] at hx
    | int n => simp [JValue.isObj] at hx
    | float q => simp [JValue.isObj] at hx
    | str s => simp [JValue.isObj] at hx
    | arr xs => simp [JValue.isObj] at hx

theorem normalizeDetails_error_of_mem (l : List JValue) (x : JValue)
    (hx : x ∈ l) (hobj : x.isObj = false) :
    normalizeDetails l = .error () := by
  induction l with
  | nil => cases hx
  | cons y t ih =>
    rcases List.mem_cons.mp hx with h | h
    · subst h
      cases x with
      | obj fs => simp [JValue.isObj] at hobj
      | null => rfl
      | bool b => rfl
      | int n => rfl
      | float q => rfl
      | str s => rfl
      | arr xs => rfl
    · cases y with
      | obj fs => simp [normalizeDetails, ih h]
      | null => rfl
      | bool b => rfl
      | int n => rfl
      | float q => rfl
      | str s => rfl
      | arr xs => rfl

/-! ## Python int(str) lemmas -/

theorem pyIntDigitsAux_dot : ∀ (k : Nat) (t : List Char), t.length ≤ k →
    ∀ acc : Nat, '.' ∈ t → pyIntDigitsAux acc t = none := by
  intro k
  induction k with
  | zero =>
    intro t ht acc hdot
    have : t = [] := List.eq_nil_of_length_eq_zero (Nat.le_zero.mp ht)
    subst this; cases hdot
  | succ k ih =>
    intro t ht acc hdot
    cases t with
    | nil => cases hdot
    | cons c0 t0 =>
      by_cases h0 : c0 = '_'
      · subst h0
        have hdot0 : '.' ∈ t0 := by
          rcases List.mem_cons.mp hdot with h | h
          · cases h
          · exact h
        cases t0 with
        | nil => cases hdot0
        | cons c2 t2 =>
          cases hd : digitVal? c2 with
          | none => simp [pyIntDigitsAux, hd]
          | some d2 =>
            have hdot2 : '.' ∈ t2 := by
              rcases List.mem_cons.mp hdot0 with h | h
              · rw [← h] at hd; simp [digitVal?] at hd
              · exact h
            have hlen : t2.length ≤ k := by
              simp only [List.length_cons] at ht; omega
            simp [pyIntDigitsAux, hd, ih t2 hlen _ hdot2]
      · cases hd : digitVal? c0 with
        | none => rw [pyIntDigitsAux.eq_def]; simp [h0, hd]
        | some d0 =>
          have hdot0 : '.' ∈ t0 := by
            rcases List.mem_cons.mp hdot with h | h
            · rw [← h] at hd; simp [digitVal?] at hd
            · exact h
          have hlen : t0.length ≤ k := by
            simp only [List.length_cons] at ht; omega
          rw [pyIntDigitsAux.eq_def]
          simp [h0, hd, ih t0 hlen _ hdot0]

theorem pyIntCore_dot (l : List Char) (hdot : '.' ∈ l) : pyIntCore l = none := by
  cases l with
  | nil => cases hdot
  | cons c t =>
    cases hd : digitVal? c with
    | none => simp [pyIntCore, hd]
    | some d =>
      have hdt : '.' ∈ t := by
        rcases List.mem_cons.mp hdot with h | h
        · rw [← h] at hd; simp [digitVal?] at hd
        · exact h
      simp [pyIntCore, hd, pyIntDigitsAux_dot t.length t le_rfl _ hdt]

theorem mem_lstrip_of_not_ws (c : Char) (l : List Char) (hc : c ∈ l)
    (hw : pyWsChar c = false) : c ∈ lstripChars l := by
  have hsplit := List.takeWhile_append_dropWhile (p := pyWsChar) (l := l)
  rcases List.mem_append.mp (by rw [hsplit]; exact hc) with h | h
  · have := List.mem_takeWhile_imp h
    rw [hw] at this; cases this
  · exact h

theorem mem_rstrip_of_not_ws (c : Char) (l : List Char) (hc : c ∈ l)
    (hw : pyWsChar c = false) : c ∈ rstripChars l := by
  rw [rstripChars, List.mem_reverse]
  exact mem_lstrip_of_not_ws c l.reverse (List.mem_reverse.mpr hc) hw

theorem mem_pyStrip_of_not_ws (c : Char) (l : List Char) (hc : c ∈ l)
    (hw : pyWsChar c = false) : c ∈ pyStrip l :=
  mem_rstrip_of_not_ws c _ (mem_lstrip_of_not_ws c l hc hw) hw

theorem pyIntOfStr_dot (s : String) (hdot : '.' ∈ s.data) :
    pyIntOfStr s = none := by
  have hmem : '.' ∈ pyStrip s.data :=
    mem_pyStrip_of_not_ws '.' s.data hdot (by decide)
  rw [pyIntOfStr]
  cases hl : pyStrip s.data with
  | nil => rfl
  | cons c t =>
    rw [hl] at hmem
    by_cases hm : c = '-'
    · have hdt : '.' ∈ t := by
        rcases List.mem_cons.mp hmem with h | h
        · rw [hm] at h; cases h
        · exact h
      simp [hm, pyIntCore_dot t hdt]
    · by_cases hp : c = '+'
      · have hdt : '.' ∈ t := by
          rcases List.mem_cons.mp hmem with h | h
          · rw [hp] at h; cases h
          · exact h
        simp [hm, hp, pyIntCore_dot t hdt]
      · simp [hm, hp, pyIntCore_dot _ hmem]

/-! ## Claim theorems -/

/-- C7: every POST to `/process_image` whose multipart form contains no file
field named `image` is answered `400` with body
`\x7b"error": "No image file provided"\x7d`, whatever the external model
would have replied — and the model is not called on that path
(`calledModel = false`). -/
theorem c7_missing_image_field_400 (files : List (String × String))
    (outcome : ModelOutcome) (h : ∀ p ∈ files, p.1 ≠ "image") :
    process_image files outcome
      = ⟨400, jsonError "No image file provided", false⟩ := by
  have hfind : files.find? (fun p => p.1 == "image") = none := by
    rw [List.find?_eq_none]
    intro p hp
    simpa using h p hp
  simp [process_image, hfind]

/-- C7 witness: a form with a single field named `file` (not `image`). -/
theorem c7_missing_image_field_400_witness :
    process_image [("file", "a.png")] ModelOutcome.failure
      = ⟨400, jsonError "No image file provided", false⟩ :=
  c7_missing_image_field_400 [("file", "a.png")] ModelOutcome.failure
    (by intro p hp; rcases List.mem_singleton.mp hp with rfl; decide)

/-- C1 counterexample: the record `\x7b"meal": 5\x7d` (a truthy non-string
`meal`) keeps the integer `5` after the normalization loop, so the
normalized record's `meal` field is not a string, contradicting the claim
that after normalization the four non-duration fields are always strings
(the `x or default` idiom of lines 141-150 replaces only falsy values). -/
theorem c1_meal_not_string_counterexample :
    dictGetD (normalizeItem [("meal", JValue.int 5)]) "meal" JValue.null
        = JValue.int 5
    ∧ (dictGetD (normalizeItem [("meal", JValue.int 5)]) "meal" JValue.null).isStr
        = false := ⟨rfl, rfl⟩

/-- C1 (amended): after the normalization loop every record has the five
fields `name`, `quantity`, `duration`, `meal`, `frequency` present;
`duration` is an integer, namely Python `int()` of the original value with
`-1` on absence or `ValueError`/`TypeError`; each of the other four fields
keeps its original value when that value is truthy and otherwise gets its
default (`"anytime"` for `meal`, `""` for the rest) — so missing keys,
nulls and falsy values are coerced to the defaults, but a truthy
non-string value is kept as it is rather than being coerced to a string.
In particular `\x7b"name": "X"\x7d` normalizes to
`\x7b"name": "X", "duration": -1, "meal": "anytime", "frequency": "",
"quantity": ""\x7d`. -/
theorem c1_normalized_fields_amended (item : List (String × JValue)) :
    (dictHasKey (normalizeItem item) "name" = true
      ∧ dictHasKey (normalizeItem item) "quantity" = true
      ∧ dictHasKey (normalizeItem item) "duration" = true
      ∧ dictHasKey (normalizeItem item) "meal" = true
      ∧ dictHasKey (normalizeItem item) "frequency" = true)
    ∧ (dictGetD (normalizeItem item) "duration" JValue.null).isInt = true
    ∧ dictGetD (normalizeItem item) "duration" JValue.null
        = .int ((pyIntJV (dictGetD item "duration" (.int (-1)))).getD (-1))
    ∧ dictGetD (normalizeItem item) "meal" JValue.null
        = pyOr (dictGetD item "meal" (.str "anytime")) (.str "anytime")
    ∧ dictGetD (normalizeItem item) "frequency" JValue.null
        = pyOr (dictGetD item "frequency" (.str "")) (.str "")
    ∧ dictGetD (normalizeItem item) "quantity" JValue.null
        = pyOr (dictGetD item "quantity" (.str "")) (.str "")
    ∧ dictGetD (normalizeItem item) "name" JValue.null
        = pyOr (dictGetD item "name" (.str "")) (.str "")
    ∧ normalizeItem [("name", JValue.str "X")]
        = [("name", .str "X"), ("duration", .int (-1)), ("meal", .str "anytime"),
           ("frequency", .str ""), ("quantity", .str "")] := by
  refine ⟨⟨normItem_hasKey_name item, normItem_hasKey_quantity item,
    normItem_hasKey_duration item, normItem_hasKey_meal item,
    normItem_hasKey_frequency item⟩, ?_, normItem_getD_duration item _,
    normItem_getD_meal item _, normItem_getD_frequency item _,
    normItem_getD_quantity item _, normItem_getD_name item _, rfl⟩
  rw [normItem_getD_duration item JValue.null]
  rfl

/-- C2 counterexample: the model text `"[5]"` is valid JSON but not of the
expected shape (an array whose element is not an object); the handler does
not answer 200 with an empty `medicine_details` — the normalization loop
calls `.get` on the integer `5`, the `AttributeError` escapes to the outer
`except`, and the response is the generic 500. -/
theorem c2_nonobject_element_500_counterexample :
    handleModelText "[5]"
      = (500, jsonError "An internal server error occurred during image processing.")
    ∧ (handleModelText "[5]").1 ≠ 200 := ⟨rfl, by decide⟩

/-- C2 (amended): when the rewritten model text is not valid JSON, or parses
to a top-level value that is neither a list nor a dict, the handler answers
200 with `medicine_details = []` (the decode error and the unexpected shape
are swallowed); but when it parses to a list one of whose elements is not
an object, the normalization loop raises an uncaught `AttributeError` and
the handler answers the generic 500 — so malformed model output is only
swallowed up to that case. -/
theorem c2_parse_fallback_amended (t : String) :
    (jsonLoads (preparse (pyStrip t.data)) = none →
      handleModelText t
        = (200, .obj [("extracted_text", .str (String.mk (preparse (pyStrip t.data)))),
                      ("medicine_details", .arr [])]))
    ∧ (∀ v, jsonLoads (preparse (pyStrip t.data)) = some v →
        v.isObj = false → (∀ xs, v ≠ .arr xs) →
        handleModelText t
          = (200, .obj [("extracted_text", .str (String.mk (preparse (pyStrip t.data)))),
                        ("medicine_details", .arr [])]))
    ∧ (∀ xs x, jsonLoads (preparse (pyStrip t.data)) = some (.arr xs) →
        x ∈ xs → x.isObj = false →
        handleModelText t
          = (500, jsonError "An internal server error occurred during image processing.")) := by
  refine ⟨?_, ?_, ?_⟩
  · intro h
    simp only [handleModelText, h]
    rfl
  · intro v h hobj harr
    simp only [handleModelText, h]
    cases v with
    | obj fs => simp [JValue.isObj] at hobj
    | arr xs => exact absurd rfl (harr xs)
    | null => rfl
    | bool b => rfl
    | int n => rfl
    | float q => rfl
    | str s => rfl
  · intro xs x h hx hobj
    simp only [handleModelText, h]
    rw [normalizeDetails_error_of_mem xs x hx hobj]

/-- C2 witness for the amended theorem: the text `"oops"` is not valid
JSON, and the response is 200 with an empty list. -/
theorem c2_parse_fallback_amended_witness :
    handleModelText "oops"
      = (200, .obj [("extracted_text", .str "oops"),
                    ("medicine_details", .arr [])]) := by
  have h := (c2_parse_fallback_amended "oops").1 (by rfl)
  simpa using h

/-- C5 counterexample: the replace of line 111 scans left to right without
re-examining its own output, so `",,]"` becomes `",]"`, which still
contains a comma immediately before a closer: the cleanup does not
guarantee that no comma immediately precedes a `]` or a `\x7d`. -/
theorem c5_cleanup_counterexample :
    cleanupText (String.data ",,]") = [',', ']']
    ∧ hasCommaCloser (cleanupText (String.data ",,]")) = true := ⟨rfl, rfl⟩

/-- C6: when the rewritten model text parses to a single JSON object (not an
array), the object is wrapped in a one-element list, and the 200 response
carries exactly that one record (normalized in place by the loop). -/
theorem c6_single_object_wrapped (t : String) (fs : List (String × JValue))
    (h : jsonLoads (preparse (pyStrip t.data)) = some (.obj fs)) :
    handleModelText t
      = (200, .obj [("extracted_text", .str (String.mk (preparse (pyStrip t.data)))),
                    ("medicine_details", .arr [.obj (normalizeItem fs)])]) := by
  simp only [handleModelText, h]
  rfl

/-- C6 witness: the model text `\x7b"name":"A"\x7d` (a single object). -/
theorem c6_single_object_wrapped_witness :
    handleModelText "\x7b\"name\":\"A\"\x7d"
      = (200, .obj [("extracted_text", .str "\x7b\"name\":\"A\"\x7d"),
                    ("medicine_details",
                     .arr [.obj [("name", .str "A"), ("duration", .int (-1)),
                                 ("meal", .str "anytime"), ("frequency", .str ""),
                                 ("quantity", .str "")]])]) := by
  have h := c6_single_object_wrapped "\x7b\"name\":\"A\"\x7d"
    [("name", .str "A")] (by rfl)
  simpa using h

/-- C9: the pre-parse replace of line 111 rewrites the two-character
sequences `",]"` and `",\x7d"` anywhere in the text, including inside JSON
string literals.  For the valid model output
`[\x7b"name":"A,]B","frequency":"x,\x7dy"\x7d]` (second conjunct: it parses
as such), the handler's 200 response carries the altered values: the
record's `name` becomes `"A]B"`, its `frequency` becomes `"x\x7dy"`, and
`extracted_text` is the altered text as well. -/
theorem c9_cleanup_alters_string_values :
    handleModelText "[\x7b\"name\":\"A,]B\",\"frequency\":\"x,\x7dy\"\x7d]"
      = (200, .obj
          [("extracted_text", .str "[\x7b\"name\":\"A]B\",\"frequency\":\"x\x7dy\"\x7d]"),
           ("medicine_details",
            .arr [.obj [("name", .str "A]B"), ("frequency", .str "x\x7dy"),
                        ("duration", .int (-1)), ("meal", .str "anytime"),
                        ("quantity", .str "")]])])
    ∧ jsonLoads (String.data "[\x7b\"name\":\"A,]B\",\"frequency\":\"x,\x7dy\"\x7d]")
        = some (.arr [.obj [("name", .str "A,]B"), ("frequency", .str "x,\x7dy")]]) :=
  ⟨rfl, rfl⟩

/-- C10: the `duration` coercion of lines 134-138 accepts exactly what
Python `int()` accepts on decoded JSON values: a fractional number is
truncated toward zero (`7.9` to `7`, `-7.9` to `-7`), a boolean becomes `0`
or `1`, a string goes through `int(str)` (so a numeric string with a
decimal point such as `"7.9"` raises and yields the default `-1`), and
`null`, lists and dicts raise and yield `-1`. -/
theorem c10_duration_coercion (item : List (String × JValue)) :
    dictGetD (normalizeItem item) "duration" JValue.null
        = .int ((pyIntJV (dictGetD item "duration" (.int (-1)))).getD (-1))
    ∧ (∀ q : Rat, pyIntJV (.float q) = some (ratTrunc q))
    ∧ pyIntJV (.float (mkRat 79 10)) = some 7
    ∧ pyIntJV (.float (mkRat (-79) 10)) = some (-7)
    ∧ (∀ b : Bool, pyIntJV (.bool b) = some (if b then 1 else 0))
    ∧ (∀ s : String, pyIntJV (.str s) = pyIntOfStr s)
    ∧ (∀ s : String, '.' ∈ s.data → pyIntJV (.str s) = none)
    ∧ pyIntJV (.str "7.9") = none
    ∧ pyIntJV .null = none
    ∧ (∀ xs, pyIntJV (.arr xs) = none)
    ∧ (∀ fs, pyIntJV (.obj fs) = none)
    ∧ (∀ v : JValue, pyIntJV v = none →
        dictGetD (normalizeItem (dictSet item "duration" v)) "duration" JValue.null
          = .int (-1)) := by
  refine ⟨normItem_getD_duration item _, fun q => rfl, by decide, by decide,
    fun b => rfl, fun s => rfl, fun s hs => pyIntOfStr_dot s hs, by decide,
    rfl, fun xs => rfl, fun fs => rfl, ?_⟩
  intro v hv
  rw [normItem_getD_duration, dictGetD_dictSet_self, hv]
  rfl

/-- C10 witness: a record whose `duration` is the decoded JSON number `7.9`
normalizes to the integer `7`, and the string `"7.9"` is rejected. -/
theorem c10_duration_coercion_witness :
    dictGetD (normalizeItem [("duration", JValue.float (mkRat 79 10))])
        "duration" JValue.null = JValue.int 7
    ∧ dictGetD (normalizeItem [("duration", JValue.str "7.9")])
        "duration" JValue.null = JValue.int (-1)
    ∧ '.' ∈ ("7.9" : String).data := by
  refine ⟨?_, ?_, by decide⟩
  · rw [(c10_duration_coercion [("duration", JValue.float (mkRat 79 10))]).1]
    rfl
  · rw [(c10_duration_coercion [("duration", JValue.str "7.9")]).1]
    rfl

/-! ## Entry lemmas for idempotence -/

theorem dictSet_entries_self (m : List (String × JValue)) (k : String)
    (v : JValue) : ∀ p ∈ dictSet m k v, p.1 = k → p = (k, v) := by
  intro p hp hk
  by_cases hm : dictHasKey m k = true
  · rw [dictSet, if_pos hm] at hp
    rcases List.mem_map.mp hp with ⟨q, hq, hfq⟩
    by_cases hqk : q.1 = k
    · rw [← hfq]; simp [hqk]
    · rw [← hfq] at hk
      simp [hqk] at hk
  · rw [dictSet, if_neg hm] at hp
    rcases List.mem_append.mp hp with h | h
    · exfalso
      apply hm
      simp only [dictHasKey, List.any_eq_true]
      exact ⟨p, h, by simp [hk]⟩
    · simpa using h

theorem dictSet_entries_other (m : List (String × JValue)) (k k' : String)
    (v w : JValue) (hkk : k' ≠ k)
    (hP : ∀ p ∈ m, p.1 = k' → p = (k', w)) :
    ∀ p ∈ dictSet m k v, p.1 = k' → p = (k', w) := by
  intro p hp hk'
  by_cases hm : dictHasKey m k = true
  · rw [dictSet, if_pos hm] at hp
    rcases List.mem_map.mp hp with ⟨q, hq, hfq⟩
    by_cases hqk : q.1 = k
    · rw [← hfq] at hk'
      simp [hqk] at hk'
      exact absurd hk'.symm hkk
    · have hfq' : (if (q.1 == k) = true then (k, v) else q) = q := by
        simp [hqk]
      rw [hfq'] at hfq
      rw [← hfq] at hk' ⊢
      exact hP q hq hk'
  · rw [dictSet, if_neg hm] at hp
    rcases List.mem_append.mp hp with h | h
    · exact hP p h hk'
    · have : p = (k, v) := by simpa using h
      rw [this] at hk'
      exact absurd hk'.symm hkk

theorem dictSet_eq_self (m : List (String × JValue)) (k : String) (v : JValue)
    (hm : dictHasKey m k = true)
    (hP : ∀ p ∈ m, p.1 = k → p = (k, v)) :
    dictSet m k v = m := by
  rw [dictSet, if_pos hm]
  have : ∀ q ∈ m, (if q.1 == k then (k, v) else q) = q := by
    intro q hq
    by_cases hqk : q.1 = k
    · simp only [hqk]
      simp [(hP q hq hqk).symm]
    · simp [hqk]
  calc m.map (fun q => if q.1 == k then (k, v) else q)
      = m.map id := List.map_congr_left this
    _ = m := List.map_id m

theorem pyOr_idem (v d : JValue) : pyOr (pyOr v d) d = pyOr v d := by
  by_cases h : pyTruthy v = true
  · simp [pyOr, h]
  · simp only [Bool.not_eq_true] at h
    simp [pyOr, h]

theorem pyIntJV_int (n : Int) : pyIntJV (JValue.int n) = some n := rfl

theorem normalizeItem_idem (d : List (String × JValue)) :
    normalizeItem (normalizeItem d) = normalizeItem d := by
  conv_lhs => rw [normalizeItem_eq (normalizeItem d)]
  rw [normItem_getD_duration d, normItem_getD_meal d, normItem_getD_frequency d,
      normItem_getD_quantity d, normItem_getD_name d, pyOr_idem, pyOr_idem,
      pyOr_idem, pyOr_idem, pyIntJV_int, Option.getD_some]
  have P0 : ∀ p ∈ normalizeItem d, p.1 = "duration" →
      p = ("duration", JValue.int
        ((pyIntJV (dictGetD d "duration" (.int (-1)))).getD (-1))) := by
    rw [normalizeItem_eq d]
    exact dictSet_entries_other _ "name" "duration" _ _ (by decide)
      (dictSet_entries_other _ "quantity" "duration" _ _ (by decide)
        (dictSet_entries_other _ "frequency" "duration" _ _ (by decide)
          (dictSet_entries_other _ "meal" "duration" _ _ (by decide)
            (dictSet_entries_self _ "duration" _))))
  have P1 : ∀ p ∈ normalizeItem d, p.1 = "meal" →
      p = ("meal", pyOr (dictGetD d "meal" (.str "anytime")) (.str "anytime")) := by
    rw [normalizeItem_eq d]
    exact dictSet_entries_other _ "name" "meal" _ _ (by decide)
      (dictSet_entries_other _ "quantity" "meal" _ _ (by decide)
        (dictSet_entries_other _ "frequency" "meal" _ _ (by decide)
          (dictSet_entries_self _ "meal" _)))
  have P2 : ∀ p ∈ normalizeItem d, p.1 = "frequency" →
      p = ("frequency", pyOr (dictGetD d "frequency" (.str "")) (.str "")) := by
    rw [normalizeItem_eq d]
    exact dictSet_entries_other _ "name" "frequency" _ _ (by decide)
      (dictSet_entries_other _ "quantity" "frequency" _ _ (by decide)
        (dictSet_entries_self _ "frequency" _))
  have P3 : ∀ p ∈ normalizeItem d, p.1 = "quantity" →
      p = ("quantity", pyOr (dictGetD d "quantity" (.str "")) (.str "")) := by
    rw [normalizeItem_eq d]
    exact dictSet_entries_other _ "name" "quantity" _ _ (by decide)
      (dictSet_entries_self _ "quantity" _)
  have P4 : ∀ p ∈ normalizeItem d, p.1 = "name" →
      p = ("name", pyOr (dictGetD d "name" (.str "")) (.str "")) := by
    rw [normalizeItem_eq d]
    exact dictSet_entries_self _ "name" _
  rw [dictSet_eq_self _ _ _ (normItem_hasKey_duration d) P0,
      dictSet_eq_self _ _ _ (normItem_hasKey_meal d) P1,
      dictSet_eq_self _ _ _ (normItem_hasKey_frequency d) P2,
      dictSet_eq_self _ _ _ (normItem_hasKey_quantity d) P3,
      dictSet_eq_self _ _ _ (normItem_hasKey_name d) P4]

theorem normalizeTop_idem (x : JValue) :
    normalizeTop (normalizeTop x) = normalizeTop x := by
  cases x with
  | obj fs => simp [normalizeTop, normalizeItem_idem]
  | null => rfl
  | bool b => rfl
  | int n => rfl
  | float q => rfl
  | str s => rfl
  | arr xs => rfl

theorem normalizeDetails_ok_inv (l : List JValue) : ∀ l' : List JValue,
    normalizeDetails l = .ok l' →
    l' = l.map normalizeTop ∧ ∀ x ∈ l, x.isObj = true := by
  induction l with
  | nil =>
    intro l' h
    simp only [normalizeDetails] at h
    cases h
    simp
  | cons x t ih =>
    intro l' h
    cases x with
    | obj fs =>
      cases ht : normalizeDetails t with
      | error e =>
        simp only [normalizeDetails, ht] at h
        exact Except.noConfusion h
      | ok r =>
        simp only [normalizeDetails, ht] at h
        cases h
        obtain ⟨h1, h2⟩ := ih r ht
        constructor
        · simp [normalizeTop, h1]
        · intro y hy
          rcases List.mem_cons.mp hy with rfl | hy'
          · rfl
          · exact h2 y hy'
    | null =>
      simp only [normalizeDetails] at h
      exact Except.noConfusion h
    | bool b =>
      simp only [normalizeDetails] at h
      exact Except.noConfusion h
    | int n =>
      simp only [normalizeDetails] at h
      exact Except.noConfusion h
    | float q =>
      simp only [normalizeDetails] at h
      exact Except.noConfusion h
    | str s =>
      simp only [normalizeDetails] at h
      exact Except.noConfusion h
    | arr xs =>
      simp only [normalizeDetails] at h
      exact Except.noConfusion h

/-- C3: the normalization loop is idempotent: whenever a list of records
comes out of the loop (`normalizeDetails l = .ok l'`), running the loop on
that output returns it unchanged — the defaults `-1`, `"anytime"` and `""`
are fixed points of the coercions of lines 134-150. -/
theorem c3_normalization_idempotent (l l' : List JValue)
    (h : normalizeDetails l = .ok l') : normalizeDetails l' = .ok l' := by
  obtain ⟨rfl, hobj⟩ := normalizeDetails_ok_inv l l' h
  have hobj' : ∀ y ∈ l.map normalizeTop, y.isObj = true := by
    intro y hy
    rcases List.mem_map.mp hy with ⟨x, hx, rfl⟩
    have hx' := hobj x hx
    cases x with
    | obj fs => rfl
    | null => exact absurd hx' (by simp [JValue.isObj])
    | bool b => exact absurd hx' (by simp [JValue.isObj])
    | int n => exact absurd hx' (by simp [JValue.isObj])
    | float q => exact absurd hx' (by simp [JValue.isObj])
    | str s => exact absurd hx' (by simp [JValue.isObj])
    | arr xs => exact absurd hx' (by simp [JValue.isObj])
  rw [normalizeDetails_ok_of_all_obj _ hobj']
  congr 1
  rw [List.map_map]
  exact List.map_congr_left (fun x _ => normalizeTop_idem x)

/-- C3 witness: the already-normalized one-record list is a fixed point. -/
theorem c3_normalization_idempotent_witness :
    normalizeDetails
        [.obj [("name", JValue.str "A"), ("duration", JValue.int (-1)),
               ("meal", JValue.str "anytime"), ("frequency", JValue.str ""),
               ("quantity", JValue.str "")]]
      = .ok
        [.obj [("name", JValue.str "A"), ("duration", JValue.int (-1)),
               ("meal", JValue.str "anytime"), ("frequency", JValue.str ""),
               ("quantity", JValue.str "")]] :=
  c3_normalization_idempotent [.obj [("name", JValue.str "A")]] _ (by rfl)

/-- C8: on a list whose elements are all JSON objects the normalization
loop succeeds and maps each record in place — the length and the element
order are preserved — and inside each record every key other than the five
normalized ones keeps its original value. -/
theorem c8_loop_frame (l : List JValue) (h : ∀ x ∈ l, x.isObj = true) :
    normalizeDetails l = .ok (l.map normalizeTop)
    ∧ (l.map normalizeTop).length = l.length
    ∧ (∀ i : Nat, (l.map normalizeTop)[i]? = (l[i]?).map normalizeTop)
    ∧ (∀ fs, JValue.obj fs ∈ l → ∀ k : String, ∀ d : JValue,
        k ≠ "duration" → k ≠ "meal" → k ≠ "frequency" → k ≠ "quantity" →
        k ≠ "name" → dictGetD (normalizeItem fs) k d = dictGetD fs k d) := by
  refine ⟨normalizeDetails_ok_of_all_obj l h, by simp, ?_, ?_⟩
  · intro i
    exact List.getElem?_map normalizeTop l i
  · intro fs _ k d h1 h2 h3 h4 h5
    exact normItem_getD_other fs k d h1 h2 h3 h4 h5

/-- C8 witness: a record with an extra key `extra`, whose value survives. -/
theorem c8_loop_frame_witness :
    normalizeDetails [.obj [("name", JValue.str "A"), ("extra", JValue.int 9)]]
      = .ok [.obj [("name", JValue.str "A"), ("extra", JValue.int 9),
                   ("duration", JValue.int (-1)), ("meal", JValue.str "anytime"),
                   ("frequency", JValue.str ""), ("quantity", JValue.str "")]]
    ∧ dictGetD (normalizeItem [("name", JValue.str "A"), ("extra", JValue.int 9)])
        "extra" JValue.null = JValue.int 9 := by
  have h := c8_loop_frame [.obj [("name", JValue.str "A"), ("extra", JValue.int 9)]]
    (by intro x hx; rcases List.mem_singleton.mp hx with rfl; rfl)
  refine ⟨?_, ?_⟩
  · have h1 := h.1
    simpa using h1
  · exact h.2.2.2 [("name", JValue.str "A"), ("extra", JValue.int 9)]
      (List.mem_singleton.mpr rfl) "extra" JValue.null
      (by decide) (by decide) (by decide) (by decide) (by decide)

/-! ## Cleanup (line 111) lemmas -/

theorem hasCommaBefore_cons (z a : Char) (t : List Char) :
    hasCommaBefore z (a :: t)
      = ((decide (a = ',') && decide (t.head? = some z))
          || hasCommaBefore z t) := by
  by_cases ha : a = ','
  · subst ha
    cases t with
    | nil => rfl
    | cons c t' =>
      by_cases hc : c = z
      · subst hc; simp [hasCommaBefore]
      · simp [hasCommaBefore, hc]
  · cases t with
    | nil => simp [hasCommaBefore, ha]
    | cons c t' => simp [hasCommaBefore, ha]

theorem noDoubleComma_cons (a : Char) (t : List Char) :
    noDoubleComma (a :: t)
      = (!(decide (a = ',') && decide (t.head? = some ','))
          && noDoubleComma t) := by
  by_cases ha : a = ','
  · subst ha
    cases t with
    | nil => rfl
    | cons c t' =>
      by_cases hc : c = ','
      · subst hc; simp [noDoubleComma]
      · simp [noDoubleComma, hc]
  · cases t with
    | nil => simp [noDoubleComma, ha]
    | cons c t' => simp [noDoubleComma, ha]

theorem hasCommaCloser_cons (a : Char) (t : List Char) :
    hasCommaCloser (a :: t)
      = ((decide (a = ',')
          && (decide (t.head? = some ']') || decide (t.head? = some '\x7d')))
        || hasCommaCloser t) := by
  by_cases ha : a = ','
  · subst ha
    cases t with
    | nil => rfl
    | cons c t' =>
      by_cases hc : c = ']' ∨ c = '\x7d'
      · rcases hc with hc | hc <;> subst hc <;> simp [hasCommaCloser]
      · push_neg at hc
        simp [hasCommaCloser, hc.1, hc.2]
  · cases t with
    | nil => simp [hasCommaCloser, ha]
    | cons c t' =>
      rw [hasCommaCloser.eq_def]
      simp [ha]

theorem hasCommaCloser_eq (s : List Char) :
    hasCommaCloser s
      = (hasCommaBefore ']' s || hasCommaBefore '\x7d' s) := by
  induction s with
  | nil => rfl
  | cons a t ih =>
    rw [hasCommaCloser_cons, hasCommaBefore_cons, hasCommaBefore_cons, ih]
    cases h1 : decide (a = ',') <;>
      cases h2 : decide (t.head? = some ']') <;>
      cases h3 : decide (t.head? = some '\x7d') <;>
      cases h4 : hasCommaBefore ']' t <;>
      cases h5 : hasCommaBefore '\x7d' t <;> rfl

theorem pyReplace2_head? (y b : Char) (t : List Char) :
    (pyReplace2 ',' y [y] (b :: t)).head? = some b
    ∨ (pyReplace2 ',' y [y] (b :: t)).head? = some y := by
  cases t with
  | nil => left; rfl
  | cons c t' =>
    by_cases h : b = ',' ∧ c = y
    · right; simp [pyReplace2, h]
    · left; simp [pyReplace2, h]

theorem noDoubleComma_tail (a : Char) (t : List Char)
    (h : noDoubleComma (a :: t) = true) : noDoubleComma t = true := by
  rw [noDoubleComma_cons] at h
  cases hnd : noDoubleComma t
  · rw [hnd] at h; simp at h
  · rfl

theorem pyReplace2_head_of_ne (y b : Char) (t : List Char) (hb : b ≠ ',') :
    (pyReplace2 ',' y [y] (b :: t)).head? = some b := by
  cases t with
  | nil => rfl
  | cons c t' =>
    have h : ¬(b = ',' ∧ c = y) := fun hh => hb hh.1
    simp [pyReplace2, h]

theorem pyReplace2_removes (y : Char) (hy : y ≠ ',') : ∀ s : List Char,
    noDoubleComma s = true →
    hasCommaBefore y (pyReplace2 ',' y [y] s) = false := by
  intro s
  induction s using pyReplace2.induct ',' y [y] with
  | case1 => intro _; rfl
  | case2 a => intro _; simp [pyReplace2, hasCommaBefore_cons, hasCommaBefore]
  | case3 a b t hab ih =>
    intro hndc
    have hndt : noDoubleComma t = true :=
      noDoubleComma_tail _ _ (noDoubleComma_tail _ _ hndc)
    simp only [pyReplace2, if_pos hab, List.singleton_append]
    rw [hasCommaBefore_cons]
    simp [hy, ih hndt]
  | case4 a b t hab ih =>
    intro hndc
    have hndt : noDoubleComma (b :: t) = true := noDoubleComma_tail _ _ hndc
    simp only [pyReplace2, if_neg hab]
    rw [hasCommaBefore_cons]
    simp only [ih hndt, Bool.or_false]
    by_cases ha : a = ','
    · have hb : b ≠ ',' := by
        intro hb'
        rw [noDoubleComma_cons, ha, hb'] at hndc
        simp at hndc
      have hby : b ≠ y := fun hby => hab ⟨ha, hby⟩
      rw [pyReplace2_head_of_ne y b t hb]
      simp [hby]
    · simp [ha]

theorem pyReplace2_ndc (y : Char) (hy : y ≠ ',') : ∀ s : List Char,
    noDoubleComma s = true →
    noDoubleComma (pyReplace2 ',' y [y] s) = true := by
  intro s
  induction s using pyReplace2.induct ',' y [y] with
  | case1 => intro _; rfl
  | case2 a => intro h; simpa [pyReplace2] using h
  | case3 a b t hab ih =>
    intro hndc
    have hndt : noDoubleComma t = true :=
      noDoubleComma_tail _ _ (noDoubleComma_tail _ _ hndc)
    simp only [pyReplace2, if_pos hab, List.singleton_append]
    rw [noDoubleComma_cons]
    simp [hy, ih hndt]
  | case4 a b t hab ih =>
    intro hndc
    have hndt : noDoubleComma (b :: t) = true := noDoubleComma_tail _ _ hndc
    simp only [pyReplace2, if_neg hab]
    rw [noDoubleComma_cons]
    simp only [ih hndt, Bool.and_true]
    by_cases ha : a = ','
    · have hb : b ≠ ',' := by
        intro hb'
        rw [noDoubleComma_cons, ha, hb'] at hndc
        simp at hndc
      rw [pyReplace2_head_of_ne y b t hb]
      simp [hb]
    · simp [ha]

theorem hasCommaBefore_tail (z a : Char) (t : List Char)
    (h : hasCommaBefore z (a :: t) = false) : hasCommaBefore z t = false := by
  rw [hasCommaBefore_cons] at h
  cases hh : hasCommaBefore z t
  · rfl
  · rw [hh] at h; simp at h

theorem hasCommaBefore_head (z : Char) (t : List Char)
    (h : hasCommaBefore z (',' :: t) = false) : t.head? ≠ some z := by
  rw [hasCommaBefore_cons] at h
  intro hh
  rw [hh] at h
  simp at h

theorem pyReplace2_keeps_absent (y z : Char) (hy : y ≠ ',') (hzy : z ≠ y) :
    ∀ s : List Char,
    hasCommaBefore z s = false →
    hasCommaBefore z (pyReplace2 ',' y [y] s) = false := by
  intro s
  induction s using pyReplace2.induct ',' y [y] with
  | case1 => intro _; rfl
  | case2 a => intro h; simpa [pyReplace2] using h
  | case3 a b t hab ih =>
    intro habs
    have habs' : hasCommaBefore z t = false :=
      hasCommaBefore_tail _ _ _ (hasCommaBefore_tail _ _ _ habs)
    simp only [pyReplace2, if_pos hab, List.singleton_append]
    rw [hasCommaBefore_cons]
    simp [hy, ih habs']
  | case4 a b t hab ih =>
    intro habs
    simp only [pyReplace2, if_neg hab]
    rw [hasCommaBefore_cons]
    simp only [ih (hasCommaBefore_tail _ _ _ habs), Bool.or_false]
    by_cases ha : a = ','
    · subst ha
      have hbz : b ≠ z := by
        have := hasCommaBefore_head z (b :: t) habs
        simp at this
        exact this
      rcases pyReplace2_head? y b t with h | h <;> rw [h] <;> simp [hbz, hzy.symm]
    · simp [ha]

theorem hasCommaBefore_cons_of (z a : Char) (t : List Char)
    (h : hasCommaBefore z t = true) : hasCommaBefore z (a :: t) = true := by
  rw [hasCommaBefore_cons]; simp [h]

theorem hasCommaBefore_dropWhile (z : Char) (p : Char → Bool) (u : List Char)
    (h : hasCommaBefore z (u.dropWhile p) = true) :
    hasCommaBefore z u = true := by
  induction u with
  | nil => simpa using h
  | cons a t ih =>
    rw [List.dropWhile_cons] at h
    by_cases hp : p a = true
    · rw [if_pos hp] at h
      exact hasCommaBefore_cons_of z a t (ih h)
    · rw [if_neg hp] at h
      exact h

theorem hasCommaBefore_append_left (z : Char) (v w : List Char)
    (h : hasCommaBefore z v = true) : hasCommaBefore z (v ++ w) = true := by
  induction v with
  | nil => simp [hasCommaBefore] at h
  | cons a t ih =>
    rw [hasCommaBefore_cons] at h
    rw [List.cons_append, hasCommaBefore_cons]
    rcases Bool.or_eq_true_iff.mp h with hpair | ht
    · have hpair' := Bool.and_eq_true_iff.mp hpair
      cases t with
      | nil => simp at hpair'
      | cons c t' =>
        apply Bool.or_eq_true_iff.mpr
        left
        apply Bool.and_eq_true_iff.mpr
        refine ⟨hpair'.1, ?_⟩
        simpa using hpair'.2
    · apply Bool.or_eq_true_iff.mpr
      right
      exact ih ht

theorem rstrip_decomp (u : List Char) :
    u = rstripChars u ++ (u.reverse.takeWhile pyWsChar).reverse := by
  rw [rstripChars, ← List.reverse_append, List.takeWhile_append_dropWhile,
    List.reverse_reverse]

theorem hasCommaBefore_pyStrip (z : Char) (u : List Char)
    (h : hasCommaBefore z u = false) :
    hasCommaBefore z (pyStrip u) = false := by
  have h1 : hasCommaBefore z (lstripChars u) = false := by
    cases hh : hasCommaBefore z (lstripChars u)
    · rfl
    · exact absurd (hasCommaBefore_dropWhile z pyWsChar u hh) (by simp [h])
  cases hh : hasCommaBefore z (pyStrip u)
  · rfl
  · exfalso
    rw [pyStrip] at hh
    have h2 := hasCommaBefore_append_left z _
      ((lstripChars u).reverse.takeWhile pyWsChar).reverse hh
    rw [← rstrip_decomp (lstripChars u)] at h2
    rw [h1] at h2
    cases h2

/-- C5 (amended): the cleanup of line 111 replaces occurrences of `",]"` and
then of `",\x7d"` in one left-to-right pass each, without re-examining the
replaced output; on any text with no two adjacent commas this leaves no
comma immediately before a `]` or a `\x7d`. -/
theorem c5_cleanup_single_pass_amended (s : List Char)
    (h : noDoubleComma s = true) :
    hasCommaCloser (cleanupText s) = false := by
  rw [cleanupText]
  have h1 : hasCommaBefore ']' (pyReplace2 ',' ']' [']'] s) = false :=
    pyReplace2_removes ']' (by decide) s h
  have hndc1 : noDoubleComma (pyReplace2 ',' ']' [']'] s) = true :=
    pyReplace2_ndc ']' (by decide) s h
  have h2 : hasCommaBefore '\x7d'
      (pyReplace2 ',' '\x7d' ['\x7d'] (pyReplace2 ',' ']' [']'] s)) = false :=
    pyReplace2_removes '\x7d' (by decide) _ hndc1
  have h3 : hasCommaBefore ']'
      (pyReplace2 ',' '\x7d' ['\x7d'] (pyReplace2 ',' ']' [']'] s)) = false :=
    pyReplace2_keeps_absent '\x7d' ']' (by decide) (by decide) _ h1
  rw [hasCommaCloser_eq, hasCommaBefore_pyStrip ']' _ h3,
    hasCommaBefore_pyStrip '\x7d' _ h2]
  rfl

/-- C5 witness for the amended theorem: `"a,]b"` has no adjacent commas and
its cleanup contains no comma before a closer. -/
theorem c5_cleanup_single_pass_amended_witness :
    noDoubleComma (String.data "a,]b") = true
    ∧ hasCommaCloser (cleanupText (String.data "a,]b")) = false :=
  ⟨rfl, c5_cleanup_single_pass_amended (String.data "a,]b") rfl⟩
